import Mathlib

/-!
Shallow embedding of `src/mem_utils.hpp` (gxutils): the reference-counted,
growable shared byte buffer `mem_buffer` and the typed cursor ("stream")
view `mem_stream` layered on top of it, together with theorems settling
the specification's claims about them.

Modelling conventions:

* A byte is a `Nat`; the allocated block `*ptr` of `capacity` bytes is a
  `List Nat` whose length is the capacity (the constructor zero-fills it
  and `expand` keeps length and the `capacity` field in lock step, so the
  separate `capacity` field of the source is represented by
  `storage.length`).
* `size_t` values are modelled as `Nat`.  Buffer-level size arithmetic
  (bounds checks, offset additions) cannot wrap for any address a real
  buffer can hold, so it is modelled as exact natural arithmetic.  The
  stream cursor is different: its decrements (`pos--` in `peek`,
  `pos -= step` in `back`) do wrap at small, reachable values, so every
  cursor update of `mem_stream` is taken modulo `2 ^ 64`.
* `memcpy` into the block is `store_bytes`; bytes that would land outside
  the allocated block are undefined behaviour in the source and are not
  represented (the in-block bytes are).
* A call that throws `mem_exception` is modelled as returning `none` in
  the first component, paired with the object state at the throw point;
  `some r` models a normal return of `r`.
* `read(dst, len, off)` is a `const` member: it mutates nothing, so it is
  modelled as a pure function returning `none` (returned `false`, `dst`
  untouched) or `some bytes` (returned `true`, `dst` filled with `bytes`).
* The reference-counting protocol acts on the shared cell through
  `ref_counter`; it is modelled separately by `ref_cell`, recording the
  effect of the copy constructor and the destructor on the counter and
  counting calls to `Allocator::release` of the storage block.
-/

/-- Number of values of the 64-bit `size_t` type; stream-cursor
arithmetic is performed modulo this constant. -/
def size_t_card : Nat := 2 ^ 64

/-- Effect of `memcpy(*ptr + off, src, len)` on the allocated block `st`:
positions `off ≤ i < off + src.length` that lie inside the block receive
the corresponding byte of `src`, all other positions keep their byte.
Bytes falling outside the block are undefined behaviour in the source and
have no representation here. -/
def store_bytes (st : List Nat) (off : Nat) (src : List Nat) : List Nat :=
  st.take off ++ src.take (st.length - off) ++ st.drop (off + src.length)

/-- State of one `mem_buffer` handle, as far as byte contents are
concerned: the allocated block (shared cell) plus the handle-local
cursor and the policy flags and growth increment.  `ref_counter` and the
mutex are not part of this value; the counter protocol is modelled by
`ref_cell` below. -/
structure mem_buffer where
  storage : List Nat
  pos : Nat
  single_expand_size : Nat
  enable_auto_release : Bool
  enable_auto_expand : Bool
  deriving DecidableEq

/-- The `capacity` field of the source; the constructor and `expand` keep
it equal to the length of the allocated block. -/
def mem_buffer.capacity (b : mem_buffer) : Nat := b.storage.length

/-- The `mem_buffer(size_t capacity, ...)` constructor: zero-filled block
of `capacity` bytes, cursor 0, `single_expand_size` 16 KiB, both policy
flags `true` (their only initialisation in the source). -/
def mk_buffer (capacity : Nat) : mem_buffer :=
  { storage := List.replicate capacity 0
    pos := 0
    single_expand_size := 16 * 1024
    enable_auto_release := true
    enable_auto_expand := true }

/-- `expand()`: if both `enable_auto_release` and `enable_auto_expand`
hold, allocate `capacity + single_expand_size` bytes, zero-fill, copy the
old `capacity` bytes into the prefix, swap the block in, update
`capacity`, return `true`; otherwise return `false` and change nothing. -/
def mem_buffer.expand (b : mem_buffer) : Bool × mem_buffer :=
  if b.enable_auto_release ∧ b.enable_auto_expand then
    (true, { b with storage := b.storage ++ List.replicate b.single_expand_size 0 })
  else
    (false, b)

/-- `read(char *dst, size_t len, size_t off) const`: if
`len + off > capacity` return `false` (`none`) without copying; otherwise
copy `len` bytes starting at `off` into `dst` (`some` of those bytes) and
return `true`. -/
def mem_buffer.read (b : mem_buffer) (len off : Nat) : Option (List Nat) :=
  if len + off > b.capacity then
    none
  else
    some ((b.storage.drop off).take len)

/-- `read(char *dst, size_t len)`: delegate to the offset form at `pos`,
then advance `pos += len` unconditionally. -/
def mem_buffer.read_pos (b : mem_buffer) (len : Nat) :
    Option (List Nat) × mem_buffer :=
  (b.read len b.pos, { b with pos := b.pos + len })

/-- `write(const char *src, size_t len, size_t off)`: if
`len + off > capacity` then, when `enable_auto_expand` holds, call
`expand()` (whatever it does) and fall through to the copy; when it does
not hold, throw `mem_exception` (`none`) before copying anything.  The
copy stores `src` into the block at `off` and the call returns `true`. -/
def mem_buffer.write (b : mem_buffer) (src : List Nat) (off : Nat) :
    Option Bool × mem_buffer :=
  if src.length + off > b.capacity then
    if b.enable_auto_expand then
      let b1 := (b.expand).2
      (some true, { b1 with storage := store_bytes b1.storage off src })
    else
      (none, b)
  else
    (some true, { b with storage := store_bytes b.storage off src })

/-- `write(const char *src, size_t len)`: delegate to the offset form at
`pos`; on normal return advance `pos += len` (skipped when the inner call
throws). -/
def mem_buffer.write_pos (b : mem_buffer) (src : List Nat) :
    Option Bool × mem_buffer :=
  match b.write src b.pos with
  | (some r, b1) => (some r, { b1 with pos := b1.pos + src.length })
  | (none, b1) => (none, b1)

/-- One `mem_stream<T>` view: its own cursor (in raw bytes), its own
`mem_buffer` copy, the sticky end marker `eof_bit`, and
`step = sizeof(T)`. -/
structure mem_stream where
  pos : Nat
  buffer : mem_buffer
  eof_bit : Bool
  step : Nat
  deriving DecidableEq

/-- The `mem_stream(Buffer&)` constructor for an element type of width
`step`: cursor 0, end marker clear, a copy of the given buffer handle. -/
def mk_stream (step : Nat) (b : mem_buffer) : mem_stream :=
  { pos := 0, buffer := b, eof_bit := false, step := step }

/-- `get(T&)`: bounds-checked read of `step` bytes at `pos`; on success
advance `pos += step`; in either case set `eof_bit` if the resulting
`pos` has reached `capacity`.  Returns the `bool` result, the element's
bytes (`none` when the read failed and `t` is left unchanged), and the
new view state. -/
def mem_stream.get (s : mem_stream) :
    Bool × Option (List Nat) × mem_stream :=
  match s.buffer.read s.step s.pos with
  | some bs =>
      let p := (s.pos + s.step) % size_t_card
      (true, some bs,
        { s with pos := p, eof_bit := if s.buffer.capacity ≤ p then true else s.eof_bit })
  | none =>
      (false, none,
        { s with eof_bit := if s.buffer.capacity ≤ s.pos then true else s.eof_bit })

/-- `peek()`: `T t = get(); pos--; return t;` — a full `get` followed by a
one-raw-unit cursor decrement (not one element). -/
def mem_stream.peek (s : mem_stream) : Option (List Nat) × mem_stream :=
  let r := s.get
  (r.2.1, { r.2.2 with pos := (r.2.2.pos + (size_t_card - 1)) % size_t_card })

/-- `put(T const&)`: write the element's `step` bytes at `pos` through the
buffer, then advance `pos += step` (skipped when the buffer write
throws); the end marker is not touched. -/
def mem_stream.put (s : mem_stream) (bytes : List Nat) :
    Option Bool × mem_stream :=
  match s.buffer.write bytes s.pos with
  | (some r, b1) => (some r, { s with buffer := b1, pos := (s.pos + s.step) % size_t_card })
  | (none, b1) => (none, { s with buffer := b1 })

/-- `back()`: `pos -= step` in `size_t` arithmetic, then clear `eof_bit`
when the new cursor is below `capacity`. -/
def mem_stream.back (s : mem_stream) : mem_stream :=
  let p := (s.pos + (size_t_card - s.step % size_t_card)) % size_t_card
  { s with pos := p, eof_bit := if p < s.buffer.capacity then false else s.eof_bit }

/-- `forward()`: `pos += step`, then set `eof_bit` when the new cursor has
reached `capacity`. -/
def mem_stream.forward (s : mem_stream) : mem_stream :=
  let p := (s.pos + s.step) % size_t_card
  { s with pos := p, eof_bit := if s.buffer.capacity ≤ p then true else s.eof_bit }

/-- `eof()`: the sticky end marker. -/
def mem_stream.eof (s : mem_stream) : Bool := s.eof_bit

/-- The shared cell's reference-counting state: the `int` pointed to by
`ref_counter`, plus a count of how many times `Allocator::release` has
been called on the storage block (the source calls it in the destructor
when the decremented counter is 0 and `enable_auto_release` holds). -/
structure ref_cell where
  ref_counter : Int
  releases : Nat
  deriving DecidableEq

/-- Cell state right after `mem_buffer(size_t)`: `*ref_counter = 1`, no
release performed. -/
def ref_cell.init : ref_cell := { ref_counter := 1, releases := 0 }

/-- Effect of the copy constructor `mem_buffer(mem_buffer const&)` on the
shared cell: `++(*ref_counter)` under the lock. -/
def ref_cell.copy (c : ref_cell) : ref_cell :=
  { c with ref_counter := c.ref_counter + 1 }

/-- Effect of `~mem_buffer()` on the shared cell when the destroyed
handle's `enable_auto_release` flag is `a`: `--(*ref_counter)`, then
release the storage exactly when the decremented counter is 0 and `a`
holds. -/
def ref_cell.destroy (a : Bool) (c : ref_cell) : ref_cell :=
  if c.ref_counter - 1 = 0 ∧ a = true then
    { ref_counter := c.ref_counter - 1, releases := c.releases + 1 }
  else
    { ref_counter := c.ref_counter - 1, releases := c.releases }

/-- Buffer-handle states reachable through the public interface: a fresh
construction, and the result of any public mutating operation on a
reachable state.  The copy constructor reproduces all modelled fields
verbatim, so it does not add states; `rewind()` is `set_position 0`; the
typed overloads delegate to `read_pos`/`write_pos`, and every `mem_stream`
operation acts on the stream's own handle through `read`/`write`. -/
inductive Reachable : mem_buffer → Prop
  | init (cap : Nat) : Reachable (mk_buffer cap)
  | set_position (b : mem_buffer) (p : Nat) : Reachable b → Reachable { b with pos := p }
  | set_expand_size (b : mem_buffer) (n : Nat) :
      Reachable b → Reachable { b with single_expand_size := n }
  | expand_op (b : mem_buffer) : Reachable b → Reachable (b.expand).2
  | write_op (b : mem_buffer) (src : List Nat) (off : Nat) :
      Reachable b → Reachable (b.write src off).2
  | write_pos_op (b : mem_buffer) (src : List Nat) :
      Reachable b → Reachable (b.write_pos src).2
  | read_pos_op (b : mem_buffer) (len : Nat) :
      Reachable b → Reachable (b.read_pos len).2


/-! Helper lemmas about `store_bytes`. -/

/-- When the copy fits in the block, the inner `take` of `store_bytes` is
the whole source. -/
lemma store_bytes_eq (st : List Nat) (off : Nat) (src : List Nat)
    (h : off + src.length ≤ st.length) :
    store_bytes st off src = st.take off ++ src ++ st.drop (off + src.length) := by
  rw [store_bytes, List.take_of_length_le (show src.length ≤ st.length - off by omega)]

/-- An in-bounds `memcpy` does not change the block's length. -/
lemma store_bytes_length (st : List Nat) (off : Nat) (src : List Nat)
    (h : off + src.length ≤ st.length) :
    (store_bytes st off src).length = st.length := by
  rw [store_bytes_eq st off src h, List.length_append, List.length_append,
    List.length_take_of_le (by omega), List.length_drop]
  omega

/-- Reading back the range just stored by an in-bounds `memcpy` returns
exactly the stored bytes. -/
lemma store_bytes_roundtrip (st : List Nat) (off : Nat) (src : List Nat)
    (h : off + src.length ≤ st.length) :
    ((store_bytes st off src).drop off).take src.length = src := by
  rw [store_bytes_eq st off src h, List.append_assoc,
    List.drop_left' (List.length_take_of_le (by omega)), List.take_left' rfl]

/-- Claim C1: for every buffer and every byte range `(off, len)` with
`off + len ≤ capacity`, `write(src, len, off)` followed by
`read(dst, len, off)` succeeds and yields exactly the written bytes. -/
theorem mem_buffer.write_then_read_roundtrip (b : mem_buffer) (src : List Nat) (off : Nat)
    (h : off + src.length ≤ b.capacity) :
    (b.write src off).1 = some true ∧
    (b.write src off).2.read src.length off = some src := by
  have h' : off + src.length ≤ b.storage.length := h
  have hw : b.write src off = (some true, { b with storage := store_bytes b.storage off src }) := by
    simp only [mem_buffer.write, mem_buffer.capacity]
    rw [if_neg (by omega)]
  rw [hw]
  refine ⟨rfl, ?_⟩
  simp only [mem_buffer.read, mem_buffer.capacity]
  rw [store_bytes_length b.storage off src h', if_neg (by omega),
    store_bytes_roundtrip b.storage off src h']

/-- Witness for C1 at a concrete input. -/
theorem mem_buffer.write_then_read_roundtrip_witness :
    ((mk_buffer 4).write [1, 2, 3] 1).1 = some true ∧
    ((mk_buffer 4).write [1, 2, 3] 1).2.read 3 1 = some [1, 2, 3] :=
  mem_buffer.write_then_read_roundtrip (mk_buffer 4) [1, 2, 3] 1 (by decide)

/-- Claim C4: `expand()` returns `false` and changes nothing unless both
`enable_auto_release` and `enable_auto_expand` hold; when both hold it
returns `true`, adds exactly `single_expand_size` bytes of capacity,
preserves the old bytes as a prefix and zero-fills the added region. -/
theorem mem_buffer.expand_spec (b : mem_buffer) :
    (¬ (b.enable_auto_release = true ∧ b.enable_auto_expand = true) →
      b.expand = (false, b)) ∧
    (b.enable_auto_release = true ∧ b.enable_auto_expand = true →
      (b.expand).1 = true ∧
      (b.expand).2.capacity = b.capacity + b.single_expand_size ∧
      (b.expand).2.storage.take b.capacity = b.storage ∧
      (b.expand).2.storage.drop b.capacity = List.replicate b.single_expand_size 0) := by
  constructor
  · intro hne
    simp only [mem_buffer.expand]
    rw [if_neg hne]
  · intro hp
    simp only [mem_buffer.expand]
    rw [if_pos hp]
    refine ⟨rfl, ?_, ?_, ?_⟩
    · simp [mem_buffer.capacity]
    · exact List.take_left b.storage _
    · exact List.drop_left b.storage _

/-- Witness for C4: the policy-refusal branch at a concrete input with
`enable_auto_release` cleared, and the growth branch on a default
buffer. -/
theorem mem_buffer.expand_spec_witness :
    ({ mk_buffer 4 with enable_auto_release := false } : mem_buffer).expand =
      (false, { mk_buffer 4 with enable_auto_release := false }) ∧
    ((mk_buffer 4).expand).2.capacity = (mk_buffer 4).capacity + (mk_buffer 4).single_expand_size :=
  ⟨(mem_buffer.expand_spec _).1 (by decide),
   ((mem_buffer.expand_spec (mk_buffer 4)).2 ⟨rfl, rfl⟩).2.1⟩

/-- Claim C5: `read(dst, len, off)` with `off + len > capacity` returns
`false` with no copy (the buffer and destination are untouched: `read` is
modelled as a pure function of the buffer, so only the returned bytes can
differ); with `off + len ≤ capacity` it returns `true` and yields the
`len` bytes of `storage` starting at `off`. -/
theorem mem_buffer.read_bounds_spec (b : mem_buffer) (len off : Nat) :
    (b.capacity < off + len → b.read len off = none) ∧
    (off + len ≤ b.capacity →
      ∃ bs, b.read len off = some bs ∧ bs.length = len ∧
        ∀ i, i < len → bs[i]? = b.storage[off + i]?) := by
  constructor
  · intro hgt
    simp only [mem_buffer.read]
    rw [if_pos (by omega)]
  · intro hle
    have hle' : off + len ≤ b.storage.length := hle
    refine ⟨(b.storage.drop off).take len, ?_, ?_, ?_⟩
    · simp only [mem_buffer.read]
      rw [if_neg (by omega)]
    · rw [List.length_take_of_le (by rw [List.length_drop]; omega)]
    · intro i hi
      rw [List.getElem?_take_of_lt hi, List.getElem?_drop]

/-- Witness for C5: a rejected out-of-range read and an accepted
in-range read on a concrete buffer. -/
theorem mem_buffer.read_bounds_spec_witness :
    (mk_buffer 4).read 3 2 = none ∧
    ∃ bs, (mk_buffer 4).read 2 1 = some bs ∧ bs.length = 2 ∧
      ∀ i, i < 2 → bs[i]? = (mk_buffer 4).storage[1 + i]? :=
  ⟨(mem_buffer.read_bounds_spec (mk_buffer 4) 3 2).1 (by decide),
   (mem_buffer.read_bounds_spec (mk_buffer 4) 2 1).2 (by decide)⟩

/-- Claim C6: an over-capacity `write` on a buffer with
`enable_auto_expand` cleared throws `mem_exception` (modelled by `none`)
instead of returning, and the buffer state at the throw — storage bytes,
capacity, cursor — is exactly the state before the call: nothing was
copied first. -/
theorem mem_buffer.write_no_autoexpand_fatal (b : mem_buffer) (src : List Nat) (off : Nat)
    (hcap : b.capacity < off + src.length) (hexp : b.enable_auto_expand = false) :
    b.write src off = (none, b) := by
  simp only [mem_buffer.write]
  rw [if_pos (by omega), if_neg (by simp [hexp])]

/-- Witness for C6 at a concrete input. -/
theorem mem_buffer.write_no_autoexpand_fatal_witness :
    ({ mk_buffer 4 with enable_auto_expand := false } : mem_buffer).write [5, 6] 3
      = (none, { mk_buffer 4 with enable_auto_expand := false }) :=
  mem_buffer.write_no_autoexpand_fatal _ [5, 6] 3 (by decide) (by decide)

/-- Claim C7: the no-offset `read(dst, len)` advances the handle's cursor
by exactly `len`, whether or not the underlying bounds-checked read
succeeded, and its result is that of the offset read at the old cursor. -/
theorem mem_buffer.read_pos_always_advances (b : mem_buffer) (len : Nat) :
    (b.read_pos len).2.pos = b.pos + len ∧
    (b.read_pos len).1 = b.read len b.pos :=
  ⟨rfl, rfl⟩

/-- Counterexample to claim C3 as stated: growth is a single
`single_expand_size` step, not "enough to fit the write".  With capacity
4 and increment 4, writing 16 bytes at offset 0 (auto-expand enabled)
leaves capacity 8, so `off + len ≤ capacity` fails after the call and the
copy overruns the block; and with `enable_auto_release` cleared (growth
is gated on both flags) the same over-capacity write performs no growth
at all. -/
theorem mem_buffer.write_expand_insufficient_cex :
    ¬ (0 + (List.replicate 16 (1 : Nat)).length ≤
        (({ mk_buffer 4 with single_expand_size := 4 } : mem_buffer).write
          (List.replicate 16 1) 0).2.capacity) ∧
    (({ mk_buffer 4 with enable_auto_release := false } : mem_buffer).write
        (List.replicate 16 1) 0).2.capacity
      = ({ mk_buffer 4 with enable_auto_release := false } : mem_buffer).capacity := by
  decide

/-- Claim C3 amended: an over-capacity `write` with both policy flags
enabled grows the buffer by exactly one `single_expand_size` increment
before the copy; whenever that single increment suffices
(`off + len ≤ capacity + single_expand_size`), after the call
`off + len ≤ capacity` holds, the copy lies inside the block, and reading
the range back yields the written bytes. -/
theorem mem_buffer.write_overflow_single_expand (b : mem_buffer) (src : List Nat) (off : Nat)
    (h1 : b.enable_auto_release = true) (h2 : b.enable_auto_expand = true)
    (h3 : b.capacity < off + src.length)
    (h4 : off + src.length ≤ b.capacity + b.single_expand_size) :
    (b.write src off).1 = some true ∧
    (b.write src off).2.capacity = b.capacity + b.single_expand_size ∧
    off + src.length ≤ (b.write src off).2.capacity ∧
    (b.write src off).2.read src.length off = some src := by
  have h3' : b.storage.length < off + src.length := h3
  have h4' : off + src.length ≤ b.storage.length + b.single_expand_size := h4
  have hL : off + src.length ≤ (b.storage ++ List.replicate b.single_expand_size 0).length := by
    rw [List.length_append, List.length_replicate]
    omega
  have hexp : b.expand
      = (true, { b with storage := b.storage ++ List.replicate b.single_expand_size 0 }) := by
    simp only [mem_buffer.expand]
    rw [if_pos ⟨h1, h2⟩]
  have hw : b.write src off
      = (some true, { b with storage := store_bytes (b.storage ++ List.replicate b.single_expand_size 0) off src }) := by
    simp only [mem_buffer.write, mem_buffer.capacity]
    rw [if_pos (by omega), if_pos h2, hexp]
  rw [hw]
  refine ⟨rfl, ?_, ?_, ?_⟩
  · show (store_bytes _ off src).length = b.storage.length + b.single_expand_size
    rw [store_bytes_length _ _ _ hL, List.length_append, List.length_replicate]
  · show off + src.length ≤ (store_bytes _ off src).length
    rw [store_bytes_length _ _ _ hL]
    exact hL
  · simp only [mem_buffer.read, mem_buffer.capacity]
    rw [store_bytes_length _ _ _ hL, if_neg (by omega),
      store_bytes_roundtrip _ _ _ hL]

/-- Witness for the amended C3: capacity 4, increment 4, an 8-byte write
at offset 0 grows the buffer once and reads back intact. -/
theorem mem_buffer.write_overflow_single_expand_witness :
    (({ mk_buffer 4 with single_expand_size := 4 } : mem_buffer).write
        (List.replicate 8 1) 0).2.read 8 0 = some (List.replicate 8 1) :=
  (mem_buffer.write_overflow_single_expand
    { mk_buffer 4 with single_expand_size := 4 } (List.replicate 8 1) 0
    rfl rfl (by decide) (by decide)).2.2.2

/-! Helper lemmas: no public operation touches the policy flags. -/

/-- `expand()` leaves both policy flags as they were. -/
lemma mem_buffer.expand_flags (b : mem_buffer) :
    (b.expand).2.enable_auto_release = b.enable_auto_release ∧
    (b.expand).2.enable_auto_expand = b.enable_auto_expand := by
  simp only [mem_buffer.expand]
  split
  · exact ⟨rfl, rfl⟩
  · exact ⟨rfl, rfl⟩

/-- `write(src, len, off)` leaves both policy flags as they were. -/
lemma mem_buffer.write_flags (b : mem_buffer) (src : List Nat) (off : Nat) :
    (b.write src off).2.enable_auto_release = b.enable_auto_release ∧
    (b.write src off).2.enable_auto_expand = b.enable_auto_expand := by
  simp only [mem_buffer.write]
  split
  · split
    · exact (mem_buffer.expand_flags b)
    · exact ⟨rfl, rfl⟩
  · exact ⟨rfl, rfl⟩

/-- `write(src, len)` leaves both policy flags as they were. -/
lemma mem_buffer.write_pos_flags (b : mem_buffer) (src : List Nat) :
    (b.write_pos src).2.enable_auto_release = b.enable_auto_release ∧
    (b.write_pos src).2.enable_auto_expand = b.enable_auto_expand := by
  have h := mem_buffer.write_flags b src b.pos
  simp only [mem_buffer.write_pos]
  rcases hw : b.write src b.pos with ⟨r, b1⟩
  rw [hw] at h
  cases r
  · exact h
  · exact h

/-- Claim C10: in every reachable handle state both policy flags are
`true` (the constructor sets them, copies inherit them, nothing clears
them); consequently `expand()` never takes its refusal branch and the
fatal over-capacity branch of `write` is never reached. -/
theorem mem_buffer.reachable_flags_invariant (b : mem_buffer) (h : Reachable b) :
    b.enable_auto_release = true ∧ b.enable_auto_expand = true ∧
    (b.expand).1 = true ∧
    ∀ (src : List Nat) (off : Nat), (b.write src off).1 = some true := by
  have hflags : b.enable_auto_release = true ∧ b.enable_auto_expand = true := by
    induction h with
    | init cap => exact ⟨rfl, rfl⟩
    | set_position b p _ ih => exact ih
    | set_expand_size b n _ ih => exact ih
    | expand_op b _ ih =>
        rw [(mem_buffer.expand_flags b).1, (mem_buffer.expand_flags b).2]
        exact ih
    | write_op b src off _ ih =>
        rw [(mem_buffer.write_flags b src off).1, (mem_buffer.write_flags b src off).2]
        exact ih
    | write_pos_op b src _ ih =>
        rw [(mem_buffer.write_pos_flags b src).1, (mem_buffer.write_pos_flags b src).2]
        exact ih
    | read_pos_op b len _ ih => exact ih
  obtain ⟨h1, h2⟩ := hflags
  refine ⟨h1, h2, ?_, ?_⟩
  · simp only [mem_buffer.expand]
    rw [if_pos ⟨h1, h2⟩]
  · intro src off
    simp only [mem_buffer.write]
    by_cases hc : src.length + off > b.capacity
    · rw [if_pos hc, if_pos h2]
    · rw [if_neg hc]

/-- Witness for C10: a freshly constructed buffer. -/
theorem mem_buffer.reachable_flags_invariant_witness :
    (mk_buffer 4).enable_auto_release = true ∧ (mk_buffer 4).enable_auto_expand = true ∧
    ((mk_buffer 4).expand).1 = true ∧ ((mk_buffer 4).write [9] 0).1 = some true :=
  ⟨(mem_buffer.reachable_flags_invariant _ (Reachable.init 4)).1,
   (mem_buffer.reachable_flags_invariant _ (Reachable.init 4)).2.1,
   (mem_buffer.reachable_flags_invariant _ (Reachable.init 4)).2.2.1,
   (mem_buffer.reachable_flags_invariant _ (Reachable.init 4)).2.2.2 [9] 0⟩

/-! Helper lemmas for the reference-counting protocol. -/

/-- After `N` copy constructions the shared counter is `N + 1` and no
release has happened. -/
lemma ref_cell.copy_iter (N : Nat) :
    ref_cell.copy^[N] ref_cell.init = { ref_counter := (N : Int) + 1, releases := 0 } := by
  induction N with
  | zero => decide
  | succ n ih =>
      rw [Function.iterate_succ_apply', ih, ref_cell.copy]
      simp only [ref_cell.mk.injEq]
      refine ⟨by omega, trivial⟩

/-- Destroying the last handle (counter 1, `enable_auto_release` set)
zeroes the counter and performs one release. -/
lemma ref_cell.destroy_last (c : ref_cell) (h : c.ref_counter = 1) :
    ref_cell.destroy true c = { ref_counter := 0, releases := c.releases + 1 } := by
  rw [ref_cell.destroy, if_pos ⟨by omega, rfl⟩]
  simp only [ref_cell.mk.injEq]
  refine ⟨by omega, trivial⟩

/-- Destroying a non-last handle only decrements the counter. -/
lemma ref_cell.destroy_not_last (c : ref_cell) (h : c.ref_counter ≠ 1) :
    ref_cell.destroy true c = { ref_counter := c.ref_counter - 1, releases := c.releases } := by
  rw [ref_cell.destroy, if_neg (by intro hand; obtain ⟨h1, h2⟩ := hand; exact h (by omega))]

/-- Destroying `k + 1` handles of a cell whose counter is `k + 1` (with
`enable_auto_release` set on each) drives the counter to 0 and performs
exactly one more release, at the last destruction. -/
lemma ref_cell.destroy_iter (k : Nat) :
    ∀ c : ref_cell, c.ref_counter = (k : Int) + 1 →
      (ref_cell.destroy true)^[k + 1] c = { ref_counter := 0, releases := c.releases + 1 } := by
  induction k with
  | zero =>
      intro c hc
      rw [Function.iterate_one]
      exact ref_cell.destroy_last c (by omega)
  | succ n ih =>
      intro c hc
      rw [Function.iterate_succ_apply, ref_cell.destroy_not_last c (by omega)]
      exact ih _ (by show c.ref_counter - 1 = (n : Int) + 1; omega)

/-- Claim C2: copy construction increments the shared reference count by
exactly 1 (and releases nothing); destruction decrements it by exactly 1;
a destruction releases the storage exactly when the count transitions
from 1 to 0 with `enable_auto_release` set (and otherwise releases
nothing); and constructing a buffer, copying it `N` times and destroying
all `N + 1` handles performs exactly one release. -/
theorem ref_cell.refcount_release_spec :
    (∀ c : ref_cell, (ref_cell.copy c).ref_counter = c.ref_counter + 1 ∧
      (ref_cell.copy c).releases = c.releases) ∧
    (∀ (a : Bool) (c : ref_cell), (ref_cell.destroy a c).ref_counter = c.ref_counter - 1) ∧
    (∀ (a : Bool) (c : ref_cell),
      (ref_cell.destroy a c).releases = c.releases + 1 ↔ (c.ref_counter = 1 ∧ a = true)) ∧
    (∀ (a : Bool) (c : ref_cell), (ref_cell.destroy a c).releases = c.releases ∨
      (ref_cell.destroy a c).releases = c.releases + 1) ∧
    (∀ N : Nat, (ref_cell.destroy true)^[N + 1] (ref_cell.copy^[N] ref_cell.init)
      = { ref_counter := 0, releases := 1 }) := by
  refine ⟨fun c => ⟨rfl, rfl⟩, fun a c => ?_, fun a c => ?_, fun a c => ?_, fun N => ?_⟩
  · rw [ref_cell.destroy]
    split
    · rfl
    · rfl
  · by_cases hcond : c.ref_counter - 1 = 0 ∧ a = true
    · obtain ⟨hc1, hc2⟩ := hcond
      rw [ref_cell.destroy, if_pos ⟨hc1, hc2⟩]
      constructor
      · intro _
        exact ⟨by omega, hc2⟩
      · intro _
        rfl
    · rw [ref_cell.destroy, if_neg hcond]
      constructor
      · intro hrel
        have hrel' : c.releases = c.releases + 1 := hrel
        omega
      · intro hcr
        obtain ⟨h5, h6⟩ := hcr
        exact absurd ⟨by omega, h6⟩ hcond
  · rw [ref_cell.destroy]
    split
    · right
      rfl
    · left
      rfl
  · rw [ref_cell.copy_iter N]
    exact ref_cell.destroy_iter N _ rfl

/-- Counterexample to claim C8 as stated: `peek` steps the cursor back by
one raw byte, not by one element, so it only leaves the position
unchanged for width-1 elements whose read succeeds.  On a width-2 view of
a 4-byte buffer a fresh `peek` moves the cursor from 0 to 1; and on a
width-1 view whose cursor sits at the capacity (so the inner `get`
fails), `peek` still decrements the cursor from 2 to 1. -/
theorem mem_stream.peek_moves_cursor_cex :
    ¬ (((mk_stream 2 (mk_buffer 4)).peek).2.pos = (mk_stream 2 (mk_buffer 4)).pos) ∧
    ¬ (((((mk_stream 1 (mk_buffer 2)).forward).forward).peek).2.pos
        = (((mk_stream 1 (mk_buffer 2)).forward).forward).pos) := by
  decide

/-- Claim C8 amended: for a width-1 view whose next read is in bounds,
`peek` returns the next element and leaves the cursor where it was; in
general `peek` is a `get` followed by a one-raw-byte step back. -/
theorem mem_stream.peek_width_one_spec (s : mem_stream)
    (hstep : s.step = 1) (hcap : s.pos + 1 ≤ s.buffer.capacity)
    (hpos : s.pos + 1 < size_t_card) :
    (s.peek).2.pos = s.pos ∧
    (s.peek).1 = some ((s.buffer.storage.drop s.pos).take 1) := by
  have hread : s.buffer.read 1 s.pos = some ((s.buffer.storage.drop s.pos).take 1) := by
    simp only [mem_buffer.read]
    rw [if_neg (by omega)]
  simp only [mem_stream.peek, mem_stream.get, hstep, hread]
  rw [Nat.mod_eq_of_lt hpos]
  refine ⟨?_, by trivial⟩
  show (s.pos + 1 + (size_t_card - 1)) % size_t_card = s.pos
  have h0 : 0 < size_t_card := by norm_num [size_t_card]
  have h1 : s.pos + 1 + (size_t_card - 1) = s.pos + size_t_card := by omega
  rw [h1, Nat.add_mod_right, Nat.mod_eq_of_lt (by omega)]

/-- Witness for the amended C8 on a fresh width-1 view. -/
theorem mem_stream.peek_width_one_spec_witness :
    ((mk_stream 1 (mk_buffer 4)).peek).2.pos = (mk_stream 1 (mk_buffer 4)).pos ∧
    ((mk_stream 1 (mk_buffer 4)).peek).1 = some (((mk_buffer 4).storage.drop 0).take 1) :=
  mem_stream.peek_width_one_spec (mk_stream 1 (mk_buffer 4)) rfl (by decide) (by decide)

/-- Counterexample to claim C9 as stated: a failed `get` does not advance
the cursor (width-4 view over a 2-byte buffer), and `put` never updates
the end marker, so after four `put`s on a width-1 view of a 4-byte buffer
the cursor has reached the capacity while `eof()` is still false. -/
theorem mem_stream.cursor_eof_cex :
    ¬ (((mk_stream 4 (mk_buffer 2)).get).2.2.pos = (mk_stream 4 (mk_buffer 2)).pos + 4) ∧
    ¬ ((((fun s => (s.put [7]).2)^[4] (mk_stream 1 (mk_buffer 4))).eof_bit = true) ↔
        (((fun s => (s.put [7]).2)^[4] (mk_stream 1 (mk_buffer 4))).buffer.capacity ≤
          ((fun s => (s.put [7]).2)^[4] (mk_stream 1 (mk_buffer 4))).pos)) := by
  decide

/-- Claim C9 amended: a view's cursor starts at 0 with the end marker
clear; `get` advances by one element exactly when the underlying read
succeeds, and then sets the end marker exactly when the resulting cursor
(in bytes) has reached the capacity (keeping it if already set); `put`
always advances by one element on its non-throwing path and never touches
the end marker; `back` moves one element back and clears the end marker
exactly when the resulting cursor is below the capacity. -/
theorem mem_stream.cursor_eof_spec :
    (∀ (k : Nat) (b : mem_buffer), (mk_stream k b).pos = 0 ∧ (mk_stream k b).eof_bit = false) ∧
    (∀ s : mem_stream, s.pos + s.step ≤ s.buffer.capacity → s.pos + s.step < size_t_card →
      ((s.get).2.2.pos = s.pos + s.step ∧
        ((s.get).2.2.eof_bit = true ↔
          (s.eof_bit = true ∨ s.buffer.capacity ≤ s.pos + s.step)))) ∧
    (∀ s : mem_stream, s.buffer.capacity < s.pos + s.step →
      ((s.get).2.2.pos = s.pos ∧
        ((s.get).2.2.eof_bit = true ↔
          (s.eof_bit = true ∨ s.buffer.capacity ≤ s.pos)))) ∧
    (∀ (s : mem_stream) (bytes : List Nat), s.pos + s.step < size_t_card →
      (((s.put bytes).1 ≠ none → (s.put bytes).2.pos = s.pos + s.step) ∧
        (s.put bytes).2.eof_bit = s.eof_bit)) ∧
    (∀ s : mem_stream, s.step ≤ s.pos → s.pos < size_t_card →
      ((s.back).pos = s.pos - s.step ∧
        ((s.back).eof_bit = true ↔
          (s.eof_bit = true ∧ s.buffer.capacity ≤ s.pos - s.step)))) := by
  refine ⟨fun k b => ⟨rfl, rfl⟩, fun s hin hwrap => ?_, fun s hout => ?_,
    fun s bytes hwrap => ?_, fun s hge hlt => ?_⟩
  · have hread : s.buffer.read s.step s.pos
        = some ((s.buffer.storage.drop s.pos).take s.step) := by
      simp only [mem_buffer.read]
      rw [if_neg (by omega)]
    simp only [mem_stream.get, hread]
    rw [Nat.mod_eq_of_lt hwrap]
    refine ⟨by trivial, ?_⟩
    by_cases hc : s.buffer.capacity ≤ s.pos + s.step
    · rw [if_pos hc]
      simp [hc]
    · rw [if_neg hc]
      simp [hc]
  · have hread : s.buffer.read s.step s.pos = none := by
      simp only [mem_buffer.read]
      rw [if_pos (by omega)]
    simp only [mem_stream.get, hread]
    refine ⟨by trivial, ?_⟩
    by_cases hc : s.buffer.capacity ≤ s.pos
    · rw [if_pos hc]
      simp [hc]
    · rw [if_neg hc]
      simp [hc]
  · simp only [mem_stream.put]
    rcases hw : s.buffer.write bytes s.pos with ⟨r, b1⟩
    cases r
    · exact ⟨fun hne => absurd rfl hne, rfl⟩
    · exact ⟨fun _ => Nat.mod_eq_of_lt hwrap, rfl⟩
  · simp only [mem_stream.back]
    have hsw : s.step % size_t_card = s.step := Nat.mod_eq_of_lt (by omega)
    have hp : (s.pos + (size_t_card - s.step % size_t_card)) % size_t_card
        = s.pos - s.step := by
      rw [hsw]
      have h1 : s.pos + (size_t_card - s.step) = (s.pos - s.step) + size_t_card := by omega
      rw [h1, Nat.add_mod_right, Nat.mod_eq_of_lt (by omega)]
    rw [hp]
    refine ⟨by trivial, ?_⟩
    by_cases hc : s.pos - s.step < s.buffer.capacity
    · rw [if_pos hc]
      simp [Nat.not_le.mpr hc]
    · rw [if_neg hc]
      simp [Nat.not_lt.mp hc]

/-- Witness for the amended C9: concrete instances of the construction,
successful-get, failed-get, put and back clauses. -/
theorem mem_stream.cursor_eof_spec_witness :
    (mk_stream 1 (mk_buffer 4)).pos = 0 ∧
    ((mk_stream 1 (mk_buffer 4)).get).2.2.pos = (mk_stream 1 (mk_buffer 4)).pos + 1 ∧
    ((mk_stream 4 (mk_buffer 2)).get).2.2.pos = (mk_stream 4 (mk_buffer 2)).pos ∧
    ((mk_stream 1 (mk_buffer 4)).put [7]).2.pos = (mk_stream 1 (mk_buffer 4)).pos + 1 ∧
    ((mk_stream 1 (mk_buffer 4)).put [7]).2.eof_bit = (mk_stream 1 (mk_buffer 4)).eof_bit ∧
    (({ pos := 2, buffer := mk_buffer 4, eof_bit := true, step := 1 } : mem_stream).back).pos
      = 2 - 1 :=
  ⟨(mem_stream.cursor_eof_spec.1 1 (mk_buffer 4)).1,
   (mem_stream.cursor_eof_spec.2.1 (mk_stream 1 (mk_buffer 4)) (by decide) (by decide)).1,
   (mem_stream.cursor_eof_spec.2.2.1 (mk_stream 4 (mk_buffer 2)) (by decide)).1,
   (mem_stream.cursor_eof_spec.2.2.2.1 (mk_stream 1 (mk_buffer 4)) [7] (by decide)).1 (by decide),
   (mem_stream.cursor_eof_spec.2.2.2.1 (mk_stream 1 (mk_buffer 4)) [7] (by decide)).2,
   (mem_stream.cursor_eof_spec.2.2.2.2
     { pos := 2, buffer := mk_buffer 4, eof_bit := true, step := 1 }
     (by decide) (by decide)).1⟩
